import Mathlib

/-!
# Verification of the stock-forecasting pipeline (src/app.py)

Shallow embedding of the core pipeline of the application:
column flattening (SchemaNormalizer), close-column resolution
(ColumnResolver), series validation (SeriesValidator), summary
statistics (SummaryStatistics) and the Prophet-based forecaster.

Dates are modelled as `Int` (days), numeric cell values as `ℚ` together
with explicit `posInf`/`negInf`/`nan` markers mirroring IEEE specials as
pandas treats them (`to_numeric(errors='coerce')` turns an unparseable
cell into NaN; `replace([inf, -inf], nan)` folds infinities into NaN;
`dropna` removes NaN/NaT rows).
-/

namespace StockApp

/-- A numeric cell after `pd.to_numeric(..., errors='coerce')`: either a
finite number, an infinity, or NaN (which also encodes parse failure). -/
inductive CellNum where
  | finite (q : ℚ)
  | posInf
  | negInf
  | nan
deriving DecidableEq, Repr

/-- `df.replace([np.inf, -np.inf], np.nan)` on a numeric cell (src/app.py:109). -/
def replaceInf : CellNum → CellNum
  | .posInf => .nan
  | .negInf => .nan
  | c => c

/-- A column key of the raw table: either a composite (tuple) key coming
from a MultiIndex, or a flat label. -/
inductive ColKey where
  | tup (parts : List String)
  | flat (s : String)
deriving DecidableEq, Repr

/-- Is the key a tuple-typed (composite) key? -/
def isTupleKey : ColKey → Bool
  | .tup _ => true
  | .flat _ => false

/-- Python's `str.strip()`: remove leading and trailing whitespace.
Spelled over the character list so that concrete instances evaluate. -/
def pyStrip (s : String) : String :=
  ⟨((s.toList.dropWhile Char.isWhitespace).reverse.dropWhile Char.isWhitespace).reverse⟩

/-- SchemaNormalizer on one key (src/app.py:55-58):
`'_'.join(col).strip() if isinstance(col, tuple) else col`.
Joins ALL sub-labels of a tuple key with `_` and strips surrounding
whitespace; a non-tuple key passes through unchanged. -/
def flattenKey : ColKey → ColKey
  | .tup parts => .flat (pyStrip (String.intercalate "_" parts))
  | .flat s => .flat s

/-- The spec's wording of the flattening rule (claim C4): join only the
NON-EMPTY sub-labels with an underscore, then strip whitespace. Kept
separate from `flattenKey` to compare spec against source. -/
def flattenKeyClaim : ColKey → ColKey
  | .tup parts =>
      .flat (pyStrip (String.intercalate "_" (parts.filter (fun p => ¬ p = ""))))
  | .flat s => .flat s

/-- A rectangular table: ordered column keys plus rows of cells. -/
structure Table (α : Type) where
  colKeys : List ColKey
  rows : List (List α)
deriving Repr

/-- SchemaNormalizer on a whole table (src/app.py:55-58): the column
labels are replaced by their flattened forms; the cells are untouched. -/
def normalizeTable {α : Type} (t : Table α) : Table α :=
  { colKeys := t.colKeys.map flattenKey, rows := t.rows }

/-- The flattened column-name list alone (`data.columns` after line 58). -/
def normalizeColumns (keys : List ColKey) : List ColKey :=
  keys.map flattenKey

/-- The typed failure taxonomy of the spec (§7). -/
inductive PipelineError where
  | noData
  | schemaError
  | columnNotFound
  | emptySeries
  | modelFit (cause : String)
deriving DecidableEq, Repr

/-- Python's `needle in hay` substring test, spelled over character lists. -/
def strContains (hay needle : String) : Bool :=
  hay.toList.tails.any (fun t => needle.toList.isPrefixOf t)

/-- Does a column name contain the literal, case-sensitive substring
`"Close"` (src/app.py:61: `'Close' in col`)? -/
def hasClose (c : String) : Bool :=
  strContains c "Close"

/-- `close_cols = [col for col in data.columns if 'Close' in col]`
(src/app.py:61). -/
def close_cols (cols : List String) : List String :=
  cols.filter hasClose

/-- ColumnResolver (src/app.py:61-65): the first column whose name
contains `"Close"`; `ColumnNotFoundError` when there is none. -/
def resolveClose (cols : List String) : Except PipelineError String :=
  match (close_cols cols).head? with
  | some c => .ok c
  | none => .error .columnNotFound

/-- A raw row as handed to the validator: a raw date cell and the raw
value cell of the selected close column. -/
structure RawRow (D V : Type) where
  ds : D
  y : V

/-- SeriesValidator (src/app.py:107-109), parameterised by the two
coercion functions: `to_datetime(errors='coerce')` (`none` = NaT) and
`to_numeric(errors='coerce')` (`CellNum.nan` = parse failure / NaN).
Steps, in source order: coerce both cells, replace infinities by NaN,
then `dropna(subset=['ds','y'])` and read off the `(ds, y)` pairs. -/
def validateSeries {D V : Type} (toDatetime : D → Option Int)
    (toNumeric : V → CellNum) (rows : List (RawRow D V)) :
    List (Int × ℚ) :=
  let coerced := rows.map (fun r => (toDatetime r.ds, replaceInf (toNumeric r.y)))
  coerced.filterMap (fun p =>
    match p with
    | (some d, .finite q) => some (d, q)
    | _ => none)

/-- The spec's wording of validation (claim C1): keep exactly the rows
whose date parses and whose value parses to a finite number, in their
original order. -/
def validatedSeriesSpec {D V : Type} (toDatetime : D → Option Int)
    (toNumeric : V → CellNum) (rows : List (RawRow D V)) :
    List (Int × ℚ) :=
  rows.filterMap (fun r =>
    match toDatetime r.ds, toNumeric r.y with
    | some d, .finite q => some (d, q)
    | _, _ => none)

/-- Maximum of a list of a linear order, with a default for the empty
list (never relied on: all statements assume a nonempty list). -/
def listMaxD {α : Type} [LinearOrder α] (d : α) : List α → α
  | [] => d
  | [x] => x
  | x :: y :: xs => max x (listMaxD d (y :: xs))

/-- Minimum counterpart of `listMaxD`. -/
def listMinD {α : Type} [LinearOrder α] (d : α) : List α → α
  | [] => d
  | [x] => x
  | x :: y :: xs => min x (listMinD d (y :: xs))

/-- A statistic as pandas reports it: NaN (e.g. over an empty column
after skipping NaN) or a finite value. -/
inductive StatVal where
  | nan
  | val (q : ℚ)
deriving DecidableEq, Repr

/-- SummaryStats record: `avg_price`, `max_price`, `min_price`
(src/app.py:87-89). -/
structure SummaryStats where
  avg_price : StatVal
  max_price : StatVal
  min_price : StatVal
deriving DecidableEq, Repr

/-- `float(data[close_col].mean())` (src/app.py:87): pandas skips NaN
cells; the mean of the remaining values, NaN when none remain. -/
def avg_price (col : List (Option ℚ)) : StatVal :=
  let xs := col.filterMap id
  if xs.isEmpty then .nan else .val (xs.sum / xs.length)

/-- `float(data[close_col].max())` (src/app.py:88): pandas skips NaN. -/
def max_price (col : List (Option ℚ)) : StatVal :=
  let xs := col.filterMap id
  if xs.isEmpty then .nan else .val (listMaxD 0 xs)

/-- `float(data[close_col].min())` (src/app.py:89): pandas skips NaN. -/
def min_price (col : List (Option ℚ)) : StatVal :=
  let xs := col.filterMap id
  if xs.isEmpty then .nan else .val (listMinD 0 xs)

/-- SummaryStatistics (src/app.py:87-89): the three metrics of the close
column. Cells are `Option ℚ` (`none` = NaN). -/
def summaryStats (col : List (Option ℚ)) : SummaryStats :=
  { avg_price := avg_price col, max_price := max_price col, min_price := min_price col }

/-- One row of Prophet's forecast frame: `ds`, `yhat`, `yhat_lower`,
`yhat_upper` (src/app.py:141). -/
structure ForecastRow where
  ds : Int
  yhat : ℚ
  yhat_lower : ℚ
  yhat_upper : ℚ
deriving DecidableEq, Repr

/-- Modelled from the spec: the fitted Prophet model itself lives in the
external `prophet` library, absent from src/. Per the spec (§4.5) it is
an additive decomposition — a trend term plus periodic seasonal terms,
with the timestamp as sole regressor — whose uncertainty bounds come
from residual/parameter uncertainty, i.e. nonnegative offsets below and
above the point estimate. -/
structure ProphetModel where
  trend : Int → ℚ
  seasonal : Int → ℚ
  uncertaintyLo : Int → ℚ
  uncertaintyHi : Int → ℚ
  lo_nonneg : ∀ t, 0 ≤ uncertaintyLo t
  hi_nonneg : ∀ t, 0 ≤ uncertaintyHi t

/-- Modelled from the spec: `model.predict` at one timestamp — additive
point estimate and the interval bounds around it. -/
def predictRow (m : ProphetModel) (t : Int) : ForecastRow :=
  { ds := t
    yhat := m.trend t + m.seasonal t
    yhat_lower := m.trend t + m.seasonal t - m.uncertaintyLo t
    yhat_upper := m.trend t + m.seasonal t + m.uncertaintyHi t }

/-- Modelled from the spec: `model.predict(future)` (src/app.py:119) over
a list of timestamps. -/
def predictAll (m : ProphetModel) (ts : List Int) : List ForecastRow :=
  ts.map (predictRow m)

/-- Modelled from the spec: Prophet's `make_future_dataframe(periods=h)`
(src/app.py:118, implemented in the external library) — the historical
timestamps followed by `h` consecutive daily timestamps strictly after
the last historical one. -/
def makeFutureDataframe (hist : List Int) (periods : Nat) : List Int :=
  hist ++ (List.range periods).map (fun (i : Nat) => listMaxD 0 hist + (i : Int) + 1)

/-- The forecasting stage (src/app.py:111-119): with fewer than 2
validated points it stops with a model-fit failure (the source shows
`"Not enough data points for Prophet model."`, the spec's
`ModelFitError`); otherwise it fits and predicts over the historical
span plus the horizon. -/
def runForecast (m : ProphetModel) (s : List (Int × ℚ)) (periods : Nat) :
    Except PipelineError (List ForecastRow) :=
  if s.length < 2 then
    .error (.modelFit "Not enough data points for Prophet model.")
  else
    .ok (predictAll m (makeFutureDataframe (s.map Prod.fst) periods))

/-- A concrete Prophet model used to witness the forecasting theorems. -/
def constModel : ProphetModel :=
  { trend := fun _ => 0
    seasonal := fun _ => 0
    uncertaintyLo := fun _ => 1
    uncertaintyHi := fun _ => 1
    lo_nonneg := fun _ => by norm_num
    hi_nonneg := fun _ => by norm_num }

/-! ## Helper lemmas -/

/-- Unfolding the validator into a single `filterMap` over the raw rows. -/
theorem validateSeries_eq_filterMap {D V : Type} (toDatetime : D → Option Int)
    (toNumeric : V → CellNum) (rows : List (RawRow D V)) :
    validateSeries toDatetime toNumeric rows = rows.filterMap (fun r =>
      match toDatetime r.ds, toNumeric r.y with
      | some d, .finite q => some (d, q)
      | _, _ => none) := by
  unfold validateSeries
  rw [List.filterMap_map]
  congr 1
  funext r
  cases hy : toNumeric r.y <;> cases hd : toDatetime r.ds <;>
    simp [replaceInf, Function.comp, hy, hd]

/-- The head of a filtered list is the first element satisfying the test. -/
theorem head?_filter_eq_find? {α : Type} (p : α → Bool) (l : List α) :
    (l.filter p).head? = l.find? p := by
  induction l with
  | nil => rfl
  | cons a t ih =>
    by_cases h : p a <;> simp [List.filter_cons, List.find?_cons, h, ih]

/-- `find?` returns exactly the first element satisfying the test. -/
theorem find?_eq_some_first {α : Type} (p : α → Bool) (l : List α) (c : α) :
    l.find? p = some c ↔
      ∃ l₁ l₂, l = l₁ ++ c :: l₂ ∧ (∀ x ∈ l₁, p x = false) ∧ p c = true := by
  induction l with
  | nil =>
    simp only [List.find?_nil]
    constructor
    · intro h; cases h
    · rintro ⟨l₁, l₂, h, -, -⟩
      exact absurd h (by simp)
  | cons a t ih =>
    by_cases h : p a
    · rw [List.find?_cons_of_pos _ h]
      constructor
      · rintro ⟨rfl⟩
        exact ⟨[], t, rfl, by simp, h⟩
      · rintro ⟨l₁, l₂, heq, hall, hc⟩
        cases l₁ with
        | nil =>
          simp only [List.nil_append, List.cons.injEq] at heq
          rw [heq.1]
        | cons b l₁ =>
          simp only [List.cons_append, List.cons.injEq] at heq
          have hb : p b = false := hall b (List.mem_cons_self b l₁)
          rw [heq.1] at h
          rw [h] at hb
          cases hb
    · rw [List.find?_cons_of_neg _ h]
      rw [ih]
      constructor
      · rintro ⟨l₁, l₂, rfl, hall, hc⟩
        refine ⟨a :: l₁, l₂, rfl, ?_, hc⟩
        intro x hx
        rcases List.mem_cons.mp hx with rfl | hx
        · exact eq_false_of_ne_true h
        · exact hall x hx
      · rintro ⟨l₁, l₂, heq, hall, hc⟩
        cases l₁ with
        | nil =>
          simp only [List.nil_append, List.cons.injEq] at heq
          rw [heq.1] at h
          rw [hc] at h
          exact absurd rfl h
        | cons b l₁ =>
          simp only [List.cons_append, List.cons.injEq] at heq
          exact ⟨l₁, l₂, heq.2, fun x hx => hall x (List.mem_cons_of_mem b hx), hc⟩

/-! ## Claims -/

/-- C1: the SeriesValidator output (the `df` handed to Prophet,
src/app.py:107-109) contains exactly the rows whose date coerces to a
valid date and whose value coerces to a finite number; rows failing
either coercion, coercing to ±infinity, or missing a field are dropped
without error, and the survivors keep their original order. -/
theorem seriesValidator_keeps_exactly_valid_rows {D V : Type}
    (toDatetime : D → Option Int) (toNumeric : V → CellNum)
    (rows : List (RawRow D V)) :
    validateSeries toDatetime toNumeric rows =
      validatedSeriesSpec toDatetime toNumeric rows :=
  validateSeries_eq_filterMap toDatetime toNumeric rows

/-- C9: validation is idempotent — re-running the coercion/replace/dropna
steps on an already-validated series (valid dates, finite values)
returns the same series, same rows, same order. -/
theorem seriesValidator_idempotent (l : List (Int × ℚ)) :
    validateSeries (fun d => some d) (fun q => .finite q)
      (l.map (fun p => { ds := p.1, y := p.2 })) = l := by
  rw [validateSeries_eq_filterMap]
  rw [List.filterMap_map]
  induction l with
  | nil => rfl
  | cons p t ih => simp [Function.comp] at ih ⊢; exact ih

/-- C2: ColumnResolver (src/app.py:61-65) returns the first column name
containing the literal case-sensitive substring `"Close"` (it is a pure
function of the column list, hence deterministic), fails with
`ColumnNotFoundError` exactly when no name contains `"Close"`, and on
`["Open","High","Low","Close_AAPL","Volume"]` returns `"Close_AAPL"`. -/
theorem columnResolver_first_close (cols : List String) :
    (∀ c, resolveClose cols = .ok c ↔
      ∃ l₁ l₂, cols = l₁ ++ c :: l₂ ∧ (∀ x ∈ l₁, hasClose x = false) ∧
        hasClose c = true) ∧
    (resolveClose cols = .error .columnNotFound ↔
      ∀ c ∈ cols, hasClose c = false) ∧
    resolveClose ["Open", "High", "Low", "Close_AAPL", "Volume"] =
      .ok "Close_AAPL" := by
  refine ⟨?_, ?_, by rfl⟩
  · intro c
    unfold resolveClose close_cols
    rw [head?_filter_eq_find?]
    rw [← find?_eq_some_first hasClose cols c]
    cases cols.find? hasClose <;> simp
  · unfold resolveClose close_cols
    rw [head?_filter_eq_find?]
    cases hfind : cols.find? hasClose with
    | none =>
      constructor
      · intro _ c hc
        exact eq_false_of_ne_true (List.find?_eq_none.mp hfind c hc)
      · intro _
        rfl
    | some c =>
      constructor
      · intro heq
        cases heq
      · intro hall
        have hcm := List.find?_some hfind
        rw [hall c (List.mem_of_find?_eq_some hfind)] at hcm
        cases hcm

/-- Witness for C2 at the spec's scenario column list. -/
theorem columnResolver_first_close_witness :
    resolveClose ["Open", "High", "Low", "Close_AAPL", "Volume"] =
      .ok "Close_AAPL" :=
  (columnResolver_first_close ["Open", "High", "Low", "Close_AAPL", "Volume"]).2.2

/-- C4 counterexample: the source joins ALL sub-labels of a tuple key
(src/app.py:56: `'_'.join(col)`), not only the non-empty ones as the
claim states; on the composite key `("Close", "")` the source yields
`"Close_"` (the trailing underscore survives `.strip()`, which removes
only whitespace), while the claim's rule yields `"Close"`. -/
theorem schemaNormalizer_nonempty_counterexample :
    flattenKey (.tup ["Close", ""]) = .flat "Close_" ∧
    flattenKeyClaim (.tup ["Close", ""]) = .flat "Close" ∧
    flattenKey (.tup ["Close", ""]) ≠ flattenKeyClaim (.tup ["Close", ""]) := by
  refine ⟨rfl, by decide, by decide⟩

/-- C4 (amended): SchemaNormalizer maps a composite (tuple) key to the
string obtained by joining ALL its sub-labels (empty ones included) with
an underscore and stripping surrounding whitespace, passes a non-tuple
key through unchanged, and its output contains no tuple-typed keys. -/
theorem schemaNormalizer_flattening (keys : List ColKey) :
    (∀ parts, flattenKey (.tup parts) =
      .flat (pyStrip (String.intercalate "_" parts))) ∧
    (∀ s, flattenKey (.flat s) = .flat s) ∧
    (∀ k ∈ normalizeColumns keys, isTupleKey k = false) := by
  refine ⟨fun parts => rfl, fun s => rfl, ?_⟩
  intro k hk
  obtain ⟨k0, -, rfl⟩ := List.mem_map.mp hk
  cases k0 <;> rfl

/-- Witness for C4's amended theorem on a concrete key list. -/
theorem schemaNormalizer_flattening_witness :
    (ColKey.flat "Close_AAPL" ∈
      normalizeColumns [ColKey.tup ["Close", "AAPL"], ColKey.flat "Open"]) ∧
    isTupleKey (ColKey.flat "Close_AAPL") = false :=
  ⟨by decide,
   (schemaNormalizer_flattening [ColKey.tup ["Close", "AAPL"], ColKey.flat "Open"]).2.2
     (ColKey.flat "Close_AAPL") (by decide)⟩

/-- C5: the source never raises a `SchemaError` on a flattening
collision — the list comprehension at src/app.py:55-58 silently keeps
both colliding columns. On the column keys
`[("Close","AAPL"), "Close_AAPL"]` normalization succeeds and returns
the duplicated name twice. -/
theorem schemaNormalizer_collision_silent :
    normalizeColumns [ColKey.tup ["Close", "AAPL"], ColKey.flat "Close_AAPL"] =
      [ColKey.flat "Close_AAPL", ColKey.flat "Close_AAPL"] ∧
    ¬ (normalizeColumns
        [ColKey.tup ["Close", "AAPL"], ColKey.flat "Close_AAPL"]).Nodup := by
  refine ⟨by decide, by decide⟩

/-- C10: SchemaNormalizer rewrites only the column labels — exactly one
output label per input column (the i-th output label is the flattening
of the i-th input label, so order is preserved) and the rows (count,
order and every cell) are untouched. -/
theorem schemaNormalizer_frame {α : Type} (t : Table α) :
    (normalizeTable t).rows = t.rows ∧
    (normalizeTable t).colKeys.length = t.colKeys.length ∧
    ∀ i : Nat, (normalizeTable t).colKeys[i]? = (t.colKeys[i]?).map flattenKey := by
  refine ⟨rfl, by simp [normalizeTable], fun i => by simp [normalizeTable]⟩

/-- Every member of a nonempty list is bounded by `listMaxD`. -/
theorem le_listMaxD {α : Type} [LinearOrder α] (d : α) {l : List α} {x : α}
    (hx : x ∈ l) : x ≤ listMaxD d l := by
  induction l with
  | nil => cases hx
  | cons a t ih =>
    cases t with
    | nil =>
      rcases List.mem_cons.mp hx with rfl | h
      · exact le_of_eq rfl
      · cases h
    | cons b t2 =>
      rw [listMaxD]
      rcases List.mem_cons.mp hx with rfl | h
      · exact le_max_left _ _
      · exact le_trans (ih h) (le_max_right _ _)

/-- `listMaxD` of a nonempty list is one of its members. -/
theorem listMaxD_mem {α : Type} [LinearOrder α] (d : α) {l : List α}
    (hl : l ≠ []) : listMaxD d l ∈ l := by
  induction l with
  | nil => exact absurd rfl hl
  | cons a t ih =>
    cases t with
    | nil => simp [listMaxD]
    | cons b t2 =>
      rw [listMaxD]
      rcases max_cases a (listMaxD d (b :: t2)) with ⟨h1, _⟩ | ⟨h1, _⟩
      · rw [h1]; exact List.mem_cons_self _ _
      · rw [h1]; exact List.mem_cons_of_mem _ (ih (by simp))

/-- `listMinD` bounds every member of a nonempty list from below. -/
theorem listMinD_le {α : Type} [LinearOrder α] (d : α) {l : List α} {x : α}
    (hx : x ∈ l) : listMinD d l ≤ x := by
  induction l with
  | nil => cases hx
  | cons a t ih =>
    cases t with
    | nil =>
      rcases List.mem_cons.mp hx with rfl | h
      · exact le_of_eq rfl
      · cases h
    | cons b t2 =>
      rw [listMinD]
      rcases List.mem_cons.mp hx with rfl | h
      · exact min_le_left _ _
      · exact le_trans (min_le_right _ _) (ih h)

/-- `listMinD` of a nonempty list is one of its members. -/
theorem listMinD_mem {α : Type} [LinearOrder α] (d : α) {l : List α}
    (hl : l ≠ []) : listMinD d l ∈ l := by
  induction l with
  | nil => exact absurd rfl hl
  | cons a t ih =>
    cases t with
    | nil => simp [listMinD]
    | cons b t2 =>
      rw [listMinD]
      rcases min_cases a (listMinD d (b :: t2)) with ⟨h1, _⟩ | ⟨h1, _⟩
      · rw [h1]; exact List.mem_cons_self _ _
      · rw [h1]; exact List.mem_cons_of_mem _ (ih (by simp))

/-- C8 counterexample: on an empty column the source (src/app.py:87-89)
does not fail — pandas returns NaN for the mean, max and min of an
empty/all-NaN column and the app displays those NaN metrics; there is no
`EmptySeriesError` path, and NaN is not a finite statistic. -/
theorem summaryStatistics_empty_counterexample :
    summaryStats ([] : List (Option ℚ)) =
      { avg_price := .nan, max_price := .nan, min_price := .nan } ∧
    ∀ q : ℚ, summaryStats ([] : List (Option ℚ)) ≠
      { avg_price := .val q, max_price := .val q, min_price := .val q } := by
  refine ⟨rfl, fun q h => ?_⟩
  cases h

/-- C8 (amended): on a validated series (all cells finite) of length ≥ 1,
SummaryStatistics returns exactly the arithmetic mean, the maximum and
the minimum of the values; on an empty input it returns NaN for all
three statistics rather than failing with `EmptySeriesError`. -/
theorem summaryStatistics_mean_max_min (l : List ℚ) (hl : 1 ≤ l.length) :
    summaryStats (l.map some) =
      { avg_price := .val (l.sum / l.length),
        max_price := .val (listMaxD 0 l),
        min_price := .val (listMinD 0 l) } ∧
    listMaxD 0 l ∈ l ∧ (∀ x ∈ l, x ≤ listMaxD 0 l) ∧
    listMinD 0 l ∈ l ∧ (∀ x ∈ l, listMinD 0 l ≤ x) ∧
    summaryStats ([] : List (Option ℚ)) =
      { avg_price := .nan, max_price := .nan, min_price := .nan } := by
  have hne : l ≠ [] := by
    intro h
    rw [h] at hl
    cases hl
  have hfm : (l.map some).filterMap id = l := by
    rw [List.filterMap_map]
    simp
  have hemp : (l.map some).filterMap id ≠ [] := by
    rw [hfm]; exact hne
  refine ⟨?_, listMaxD_mem 0 hne, fun x hx => le_listMaxD 0 hx,
    listMinD_mem 0 hne, fun x hx => listMinD_le 0 hx, rfl⟩
  unfold summaryStats avg_price max_price min_price
  rw [if_neg (by simpa using hemp), if_neg (by simpa using hemp),
    if_neg (by simpa using hemp), hfm]

/-- Witness for C8's amended theorem at the spec scenario values
`[100, 102]` (mean 101, max 102, min 100). -/
theorem summaryStatistics_mean_max_min_witness :
    1 ≤ ([(100 : ℚ), 102]).length ∧
    summaryStats ([(100 : ℚ), 102].map some) =
      { avg_price := .val (([(100 : ℚ), 102]).sum / ([(100 : ℚ), 102]).length),
        max_price := .val (listMaxD 0 [(100 : ℚ), 102]),
        min_price := .val (listMinD 0 [(100 : ℚ), 102]) } :=
  ⟨by decide, (summaryStatistics_mean_max_min [100, 102] (by decide)).1⟩

/-- C7: with fewer than 2 validated points the forecasting stage
(src/app.py:111-112) stops with a model-fit failure and produces no
forecast, while SummaryStatistics on the same length-1 series succeeds,
returning the single value as mean, max and min. -/
theorem forecaster_short_series (m : ProphetModel) (s : List (Int × ℚ))
    (h : Nat) (hs : s.length < 2) :
    (∃ c, runForecast m s h = .error (.modelFit c)) ∧
    (∀ t q, s = [(t, q)] →
      summaryStats ((s.map Prod.snd).map some) =
        { avg_price := .val q, max_price := .val q, min_price := .val q }) := by
  constructor
  · refine ⟨"Not enough data points for Prophet model.", ?_⟩
    unfold runForecast
    rw [if_pos hs]
  · rintro t q rfl
    simp [summaryStats, avg_price, max_price, min_price, listMaxD, listMinD]

/-- Witness for C7 on the length-1 series `[(0, 5)]`. -/
theorem forecaster_short_series_witness :
    ([((0 : Int), (5 : ℚ))]).length < 2 ∧
    (∃ c, runForecast constModel [((0 : Int), (5 : ℚ))] 7 =
      .error (.modelFit c)) ∧
    summaryStats (([((0 : Int), (5 : ℚ))].map Prod.snd).map some) =
      { avg_price := .val 5, max_price := .val 5, min_price := .val 5 } :=
  ⟨by decide,
   (forecaster_short_series constModel [((0 : Int), (5 : ℚ))] 7 (by decide)).1,
   (forecaster_short_series constModel [((0 : Int), (5 : ℚ))] 7 (by decide)).2 0 5 rfl⟩

/-- C3: every row of a ForecastResult produced by the forecasting stage
satisfies `yhat_lower ≤ yhat ≤ yhat_upper` (src/app.py:114-141). -/
theorem forecaster_bound_ordering (m : ProphetModel) (s : List (Int × ℚ))
    (h : Nat) (f : List ForecastRow) (hf : runForecast m s h = .ok f) :
    ∀ r ∈ f, r.yhat_lower ≤ r.yhat ∧ r.yhat ≤ r.yhat_upper := by
  unfold runForecast at hf
  split at hf
  · cases hf
  · injection hf with hf
    subst hf
    intro r hr
    obtain ⟨t, -, rfl⟩ := List.mem_map.mp hr
    have hlo := m.lo_nonneg t
    have hhi := m.hi_nonneg t
    constructor
    · simp only [predictRow]
      linarith
    · simp only [predictRow]
      linarith

/-- Witness for C3 on a concrete two-point series and the first row. -/
theorem forecaster_bound_ordering_witness :
    runForecast constModel [((0 : Int), (1 : ℚ)), (1, 2)] 1 =
      .ok (predictAll constModel (makeFutureDataframe [0, 1] 1)) ∧
    ((predictRow constModel 0).yhat_lower ≤ (predictRow constModel 0).yhat ∧
     (predictRow constModel 0).yhat ≤ (predictRow constModel 0).yhat_upper) :=
  ⟨by rfl,
   forecaster_bound_ordering constModel [((0 : Int), (1 : ℚ)), (1, 2)] 1
     (predictAll constModel (makeFutureDataframe [0, 1] 1)) (by rfl)
     (predictRow constModel 0) (List.mem_map_of_mem _ (by decide))⟩

/-- The span/horizon facts of the (spec-modelled) future dataframe: min
is the historical min, max is the historical max plus the horizon, and
exactly `h` timestamps lie strictly after the historical max. -/
theorem makeFutureDataframe_span (hist : List Int) (h : Nat)
    (hne : hist ≠ []) (hh : 1 ≤ h) :
    listMinD 0 (makeFutureDataframe hist h) = listMinD 0 hist ∧
    listMaxD 0 (makeFutureDataframe hist h) = listMaxD 0 hist + h ∧
    ((makeFutureDataframe hist h).filter
      (fun t => listMaxD 0 hist < t)).length = h := by
  have hne2 : makeFutureDataframe hist h ≠ [] := by
    unfold makeFutureDataframe
    intro hcon
    exact hne (List.append_eq_nil.mp hcon).1
  have fact1 : ∀ x ∈ makeFutureDataframe hist h, x ≤ listMaxD 0 hist + h := by
    intro x hx
    rcases List.mem_append.mp hx with hx | hx
    · have hxm := le_listMaxD 0 hx
      omega
    · obtain ⟨i, hi, rfl⟩ := List.mem_map.mp hx
      have hih := List.mem_range.mp hi
      omega
  have fact2 : listMaxD 0 hist + h ∈ makeFutureDataframe hist h := by
    refine List.mem_append_right _ (List.mem_map.mpr ⟨h - 1, ?_, ?_⟩)
    · exact List.mem_range.mpr (by omega)
    · omega
  refine ⟨?_, ?_, ?_⟩
  · refine le_antisymm (listMinD_le 0 (List.mem_append_left _ (listMinD_mem 0 hne))) ?_
    have hmem := listMinD_mem 0 hne2
    rcases List.mem_append.mp hmem with hmem | hmem
    · exact listMinD_le 0 hmem
    · obtain ⟨i, -, heq⟩ := List.mem_map.mp hmem
      have hminmax : listMinD 0 hist ≤ listMaxD 0 hist :=
        listMinD_le 0 (listMaxD_mem 0 hne)
      omega
  · refine le_antisymm (fact1 _ (listMaxD_mem 0 hne2)) (le_listMaxD 0 fact2)
  · unfold makeFutureDataframe
    rw [List.filter_append, List.length_append]
    have h1 : hist.filter (fun t => decide (listMaxD 0 hist < t)) = [] := by
      rw [List.filter_eq_nil_iff]
      intro a ha
      have := le_listMaxD 0 ha
      simp only [decide_eq_true_eq]
      omega
    have h2 : ((List.range h).map
          (fun (i : Nat) => listMaxD 0 hist + (i : Int) + 1)).filter
        (fun t => decide (listMaxD 0 hist < t)) =
        (List.range h).map (fun (i : Nat) => listMaxD 0 hist + (i : Int) + 1) := by
      rw [List.filter_eq_self]
      intro a ha
      obtain ⟨i, -, rfl⟩ := List.mem_map.mp ha
      simp only [decide_eq_true_eq]
      omega
    rw [h1, h2, List.length_map, List.length_range]
    simp

/-- C6: for a validated series of length ≥ 2 and a positive horizon `h`,
the ForecastResult's timestamps span `[min hist, max hist + h]` and
exactly `h` of its rows are dated strictly after the last historical
timestamp (src/app.py:118-119; `make_future_dataframe` itself is
modelled from the spec, being external library code). -/
theorem forecaster_horizon (m : ProphetModel) (s : List (Int × ℚ)) (h : Nat)
    (hs : 2 ≤ s.length) (hh : 1 ≤ h) (f : List ForecastRow)
    (hf : runForecast m s h = .ok f) :
    listMinD 0 (f.map ForecastRow.ds) = listMinD 0 (s.map Prod.fst) ∧
    listMaxD 0 (f.map ForecastRow.ds) = listMaxD 0 (s.map Prod.fst) + h ∧
    (f.filter (fun r => listMaxD 0 (s.map Prod.fst) < r.ds)).length = h := by
  have hne : s.map Prod.fst ≠ [] := by
    intro hcon
    rw [List.map_eq_nil_iff] at hcon
    rw [hcon] at hs
    cases hs
  unfold runForecast at hf
  rw [if_neg (by omega)] at hf
  injection hf with hf
  subst hf
  have hds : (predictAll m (makeFutureDataframe (s.map Prod.fst) h)).map
      ForecastRow.ds = makeFutureDataframe (s.map Prod.fst) h := by
    unfold predictAll
    rw [List.map_map]
    have : (ForecastRow.ds ∘ predictRow m) = id := funext fun t => rfl
    rw [this, List.map_id]
  obtain ⟨e1, e2, e3⟩ := makeFutureDataframe_span (s.map Prod.fst) h hne hh
  refine ⟨by rw [hds]; exact e1, by rw [hds]; exact e2, ?_⟩
  unfold predictAll
  rw [List.filter_map, List.length_map]
  have hpred : ((fun r => decide (listMaxD 0 (s.map Prod.fst) < r.ds)) ∘
      predictRow m) = fun t => decide (listMaxD 0 (s.map Prod.fst) < t) :=
    funext fun t => rfl
  rw [hpred]
  exact e3

/-- Witness for C6 on the two-point series `[(0,1),(1,2)]`, horizon 1. -/
theorem forecaster_horizon_witness :
    2 ≤ ([((0 : Int), (1 : ℚ)), (1, 2)]).length ∧ (1 : Nat) ≤ 1 ∧
    runForecast constModel [((0 : Int), (1 : ℚ)), (1, 2)] 1 =
      .ok (predictAll constModel (makeFutureDataframe [0, 1] 1)) ∧
    ((predictAll constModel (makeFutureDataframe [0, 1] 1)).filter
      (fun r => listMaxD 0 ([((0 : Int), (1 : ℚ)), (1, 2)].map Prod.fst) <
        r.ds)).length = 1 :=
  ⟨by decide, by decide, by rfl,
   (forecaster_horizon constModel [((0 : Int), (1 : ℚ)), (1, 2)] 1 (by decide)
     (by decide) (predictAll constModel (makeFutureDataframe [0, 1] 1))
     (by rfl)).2.2⟩

end StockApp
